import Mathlib

/-!
Verification of the fact-checker frontend's incremental update reconciliation
and display-gated state machine, as implemented in
`src/frontend/src/store/appStore.ts` (Update Merge Log, `reset`),
`src/frontend/src/App.tsx` (WebSocket handlers and the extraction /
verification commit effects) and the `useTypewriter` hook (Reveal Scheduler).
TypeScript state is embedded as explicit Lean state records; each store
action / React effect body becomes a pure state-transition function, and
timers are modelled as explicitly allocated, cancellable handles.
-/

namespace FChker

/-- The coarse session status (`AppState.status` in `appStore.ts`). -/
inductive SessionStatus where
  | idle
  | extracting
  | awaiting_confirmation
  | verifying
  | completed
  | error
deriving DecidableEq

/-- One timeline entry / inbound thinking event (`ThinkingUpdate` in
`appStore.ts`).  The optional boolean flags default to `false` (a TS
`undefined` is falsy everywhere the store tests them).  `isDisplayComplete`
is the derived flag read by the commit effects in `App.tsx`; a fresh inbound
event always carries it as `false`. -/
structure ThinkingUpdate where
  claim_id : String
  phase : String
  message : String
  is_native_thought : Bool := false
  is_refined : Bool := false
  is_delta : Bool := false
  is_streaming_complete : Bool := false
  isDisplayComplete : Bool := false
deriving DecidableEq

/-- Guard of merge rule 1 in `addThinkingUpdate`: the incoming event is a
native thought and the last log entry is a native-thought entry for the same
`(claim_id, phase)`. -/
def nativeAppendable (log : List ThinkingUpdate) (u : ThinkingUpdate) : Bool :=
  u.is_native_thought &&
    (match log.getLast? with
     | some lastU =>
         decide (lastU.claim_id = u.claim_id) && decide (lastU.phase = u.phase) &&
           lastU.is_native_thought
     | none => false)

/-- Predicate of merge rule 2's `findIndex` search: an existing entry with the
same `(claim_id, phase)` as the event that is itself delta-or-refined-tagged
(`u.is_delta || u.is_refined` in the source; note `is_streaming_complete` is
not part of this search predicate). -/
def deltaRefinedMatch (u e : ThinkingUpdate) : Bool :=
  decide (e.claim_id = u.claim_id) && decide (e.phase = u.phase) &&
    (e.is_delta || e.is_refined)

/-- JavaScript `Array.prototype.findIndex` (first index satisfying `p`),
returning `none` for the TS `-1` case. -/
def findIndexOpt {α : Type} (p : α → Bool) : List α → Option Nat
  | [] => none
  | e :: rest => if p e then some 0 else (findIndexOpt p rest).map (· + 1)

/-- The Update Merge Log's `merge` operation (`addThinkingUpdate` in
`appStore.ts`), as a pure function on the `thinkingUpdates` list:
1. a native-thought event matching the last native entry concatenates its
   message onto that entry in place;
2. else a delta/streaming-complete event replaces the first
   delta-or-refined-tagged entry for its pair wholesale, if one exists;
3. else the event is appended. -/
def addThinkingUpdate (log : List ThinkingUpdate) (u : ThinkingUpdate) :
    List ThinkingUpdate :=
  if nativeAppendable log u then
    match log.getLast? with
    | some lastU =>
        log.dropLast ++ [{ lastU with message := lastU.message ++ u.message }]
    | none => log ++ [u]
  else if u.is_delta || u.is_streaming_complete then
    match findIndexOpt (deltaRefinedMatch u) log with
    | some i => log.set i u
    | none => log ++ [u]
  else
    log ++ [u]

/-- Merging a whole event sequence, in arrival order. -/
def mergeAll (log : List ThinkingUpdate) (es : List ThinkingUpdate) :
    List ThinkingUpdate :=
  es.foldl addThinkingUpdate log

/-- A pure native-thought event (only `is_native_thought` set). -/
def mkNative (c p m : String) : ThinkingUpdate :=
  { claim_id := c, phase := p, message := m, is_native_thought := true }

/-- A pure delta event (only `is_delta` set). -/
def mkDelta (c p m : String) : ThinkingUpdate :=
  { claim_id := c, phase := p, message := m, is_delta := true }

/-- A pure streaming-complete event (only `is_streaming_complete` set). -/
def mkComplete (c p m : String) : ThinkingUpdate :=
  { claim_id := c, phase := p, message := m, is_streaming_complete := true }

/-- State of one `useTypewriter` reveal slot: `index` is `indexRef.current`,
`displayed` the `displayedText` state, `isComplete` the completion flag,
`intervalRef` the current interval handle, `timers` the set of interval
timers actually live in the environment, and `nextId` a fresh-handle
counter.  A live timer is cancelled exactly when `clearInterval` removes its
handle. -/
structure TWState where
  index : Nat
  displayed : String
  isComplete : Bool
  timers : List Nat
  intervalRef : Option Nat
  nextId : Nat
deriving DecidableEq

/-- Initial `useTypewriter` state (empty display, no timer). -/
def twInit : TWState := ⟨0, "", false, [], none, 0⟩

/-- `clearInterval(intervalRef.current); intervalRef.current = null` when the
ref is non-null, else a no-op. -/
def clearIntervalRef (s : TWState) : TWState :=
  match s.intervalRef with
  | some tid => { s with timers := s.timers.erase tid, intervalRef := none }
  | none => s

/-- `intervalRef.current = setInterval(...)`: allocates a fresh live timer
handle and stores it in the ref. -/
def startInterval (s : TWState) : TWState :=
  { s with timers := s.timers ++ [s.nextId], intervalRef := some s.nextId,
           nextId := s.nextId + 1 }

/-- Body of `useTypewriter`'s main effect for a (possibly new) target `text`:
always clear the existing interval first; hard-reset when the text is empty
or shorter than the current index (returning early in the empty case); mark
complete without a timer when the index is already at or past the end;
otherwise start a fresh reveal interval. -/
def effectStep (text : String) (s : TWState) : TWState :=
  let s1 := clearIntervalRef s
  if text.length = 0 then
    { s1 with displayed := "", isComplete := false, index := 0 }
  else
    let s2 := if text.length < s1.index then
        { s1 with displayed := "", isComplete := false, index := 0 }
      else s1
    if text.length ≤ s2.index then
      { s2 with isComplete := true }
    else
      startInterval { s2 with isComplete := false }

/-- One interval tick of `useTypewriter`, reading the latest target `text`
through `textRef`: reveal one more character, or clear the interval and mark
complete when the end is reached. -/
def tickStep (text : String) (s : TWState) : TWState :=
  if s.index < text.length then
    { s with displayed := text.take (s.index + 1), index := s.index + 1 }
  else
    { (clearIntervalRef s) with isComplete := true }

/-- Reachable states of one reveal slot: the initial state, followed by any
interleaving of effect runs (arbitrary target texts), interval ticks (which
only fire while an interval is live) and effect-cleanup runs. -/
inductive TWReach : TWState → Prop
  | init : TWReach twInit
  | effect (text : String) {s : TWState} : TWReach s → TWReach (effectStep text s)
  | tick (text : String) {s : TWState} : TWReach s → s.intervalRef.isSome = true →
      TWReach (tickStep text s)
  | cleanup {s : TWState} : TWReach s → TWReach (clearIntervalRef s)

/-- The live timers of a slot are exactly the one referenced by
`intervalRef` (if any). -/
def twTimerInv (s : TWState) : Prop := s.timers = s.intervalRef.toList

/-- The pane with user attention (`focusPane`). -/
inductive FocusPane where
  | input
  | thinking
  | results
deriving DecidableEq

/-- Input mode (`mode` in the store). -/
inductive InputMode where
  | single
  | bulk
deriving DecidableEq

/-- An extracted claim (`Claim` in `ApiService.ts`); the JS `number`
confidence is embedded as a rational. -/
structure Claim where
  id : String
  claim : String
  verbatim : String
  context : String
  type : String
  is_quote : Bool
  confidence : Rat
deriving DecidableEq

/-- Verdict labels of `VerificationResult.status` in `ApiService.ts`. -/
inductive VerdictStatus where
  | VERIFIED
  | PARTIALLY_VERIFIED
  | UNVERIFIED
  | DISPUTED
  | FALSE
deriving DecidableEq

/-- A per-claim verification result (`VerificationResult` in
`ApiService.ts`); the untyped `sources` array is embedded as a list of
strings. -/
structure VerificationResult where
  claim_id : String
  claim_text : String
  claim_type : String
  thinking_process : String
  status : VerdictStatus
  confidence : Rat
  evidence_summary : String
  key_findings : List String
  sources : List String
deriving DecidableEq

/-- The data fields of the Zustand store (`AppState` in `appStore.ts`). -/
structure AppStoreState where
  sessionId : Option String
  focusPane : FocusPane
  mode : InputMode
  inputText : String
  extractedClaims : List Claim
  selectedClaims : List String
  thinkingUpdates : List ThinkingUpdate
  verificationResults : List VerificationResult
  status : SessionStatus
  statusMessage : String
  error : Option String
deriving DecidableEq

/-- The store's initial values. -/
def storeInit : AppStoreState :=
  { sessionId := none, focusPane := .input, mode := .single, inputText := "",
    extractedClaims := [], selectedClaims := [], thinkingUpdates := [],
    verificationResults := [], status := .idle, statusMessage := "", error := none }

/-- The store's `reset` action: a Zustand merging `set` that overwrites
exactly `extractedClaims`, `selectedClaims`, `thinkingUpdates`,
`verificationResults`, `status`, `statusMessage` and `error`, merging with
(i.e. leaving untouched) every other field. -/
def reset (s : AppStoreState) : AppStoreState :=
  { s with extractedClaims := [], selectedClaims := [], thinkingUpdates := [],
           verificationResults := [], status := .idle, statusMessage := "",
           error := none }

/-- The store together with the two out-of-band refs held by the `App`
component: `pendingClaimsRef` (PendingClaimsBuffer) and `pendingResultsRef`
(PendingResultsMap, an insertion-ordered string-keyed object). -/
structure AppSystem where
  store : AppStoreState
  pendingClaims : Option (List Claim)
  pendingResults : List (String × VerificationResult)
deriving DecidableEq

/-- Initial combined state: fresh store, both refs empty. -/
def sysInit : AppSystem := { store := storeInit, pendingClaims := none, pendingResults := [] }

/-- `reset()` invoked on the combined system: it is a store action only, so
the two refs are not touched by it. -/
def resetSystem (s : AppSystem) : AppSystem := { s with store := reset s.store }

/-- JS object assignment `obj[c] = r`: overwrite in place when the key is
present, else append (string-keyed objects preserve insertion order). -/
def insertResult (m : List (String × VerificationResult)) (c : String)
    (r : VerificationResult) : List (String × VerificationResult) :=
  if m.any (fun kv => decide (kv.1 = c)) then
    m.map (fun kv => if kv.1 = c then (c, r) else kv)
  else
    m ++ [(c, r)]

/-- The `verification_result` branch of `handleMessage` in `App.tsx`: store
the result in the pending buffer keyed by its claim id; never commit it
immediately. -/
def handleVerificationResult (s : AppSystem) (r : VerificationResult) : AppSystem :=
  { s with pendingResults := insertResult s.pendingResults r.claim_id r }

/-- The `claims_extracted` branch of `handleMessage` in `App.tsx`: buffer the
claim set in `pendingClaimsRef`, mirror it into `extractedClaims`, and set an
interim status message; the status itself is not changed here. -/
def handleClaimsExtracted (s : AppSystem) (cs : List Claim) : AppSystem :=
  let store' := { s.store with extractedClaims := cs, statusMessage := "Finishing analysis..." }
  { s with pendingClaims := some cs, store := store' }

/-- The `thinking_update` branch of `handleMessage`: merge the event into the
log (focus shifting is presentation-only and not modelled). -/
def handleThinkingUpdate (s : AppSystem) (u : ThinkingUpdate) : AppSystem :=
  let store' := { s.store with thinkingUpdates := addThinkingUpdate s.store.thinkingUpdates u }
  { s with store := store' }

/-- The extraction commit effect of `App.tsx` (sync extraction to
confirmation): while `status = extracting`, find the `extraction_thinking`
entry flagged `is_streaming_complete`; if that entry has reached
`isDisplayComplete` and claims are buffered, transition to
`awaiting_confirmation` and clear the buffer.  There is no other transition
in this effect — in particular no time-based one. -/
def extractionCommitStep (s : AppSystem) : AppSystem :=
  if s.store.status = .extracting then
    match s.store.thinkingUpdates.find?
        (fun u => decide (u.claim_id = "extraction_thinking") && u.is_streaming_complete) with
    | some u =>
        if u.isDisplayComplete && s.pendingClaims.isSome then
          let store' := { s.store with status := .awaiting_confirmation, statusMessage := "Review and confirm claims" }
          { s with store := store', pendingClaims := none }
        else s
    | none => s
  else s

/-- One discrete step of an execution during the extraction phase: wall-clock
time passing, a run of the extraction commit effect, an inbound thinking
event, or an inbound verification result. -/
inductive ExtEvent where
  | elapse (ms : Nat)
  | commitEffect
  | thinkingArrives (u : ThinkingUpdate)
  | resultArrives (r : VerificationResult)

/-- Combined system state with a millisecond wall clock. -/
structure TimedSystem where
  sys : AppSystem
  now : Nat

/-- Apply one execution step. -/
def extApply (t : TimedSystem) (e : ExtEvent) : TimedSystem :=
  match e with
  | .elapse ms => { t with now := t.now + ms }
  | .commitEffect => { t with sys := extractionCommitStep t.sys }
  | .thinkingArrives u => { t with sys := handleThinkingUpdate t.sys u }
  | .resultArrives r => { t with sys := handleVerificationResult t.sys r }

/-- Run a whole execution trace. -/
def extRun (t : TimedSystem) (es : List ExtEvent) : TimedSystem :=
  es.foldl extApply t

/-- The trace condition of claim C4's premise: no inbound event carries a
display-complete mark (inbound events never do), i.e. the extraction phase's
reveal never completes during the trace. -/
def noDisplayCompleteEvents (es : List ExtEvent) : Prop :=
  ∀ u, ExtEvent.thinkingArrives u ∈ es → u.isDisplayComplete = false

/-- `pendingResultsRef.current[c]` as an option. -/
def lookupResult (m : List (String × VerificationResult)) (c : String) :
    Option VerificationResult :=
  (m.find? (fun kv => decide (kv.1 = c))).map (fun kv => kv.2)

/-- `delete pendingResultsRef.current[c]`. -/
def removeResult (m : List (String × VerificationResult)) (c : String) :
    List (String × VerificationResult) :=
  m.filter (fun kv => !(decide (kv.1 = c)))

/-- The `forEach` body of the verification commit effect in `App.tsx`,
traversing the log in order: for every entry with `phase = "completed"` that
is display-complete and has a pending result, release that result (append to
the visible results) and delete it from the pending map. -/
def commitScan : List ThinkingUpdate → List (String × VerificationResult) →
    List VerificationResult → List (String × VerificationResult) × List VerificationResult
  | [], pend, res => (pend, res)
  | u :: rest, pend, res =>
      if decide (u.phase = "completed") && u.isDisplayComplete then
        match lookupResult pend u.claim_id with
        | some r => commitScan rest (removeResult pend u.claim_id) (res ++ [r])
        | none => commitScan rest pend res
      else commitScan rest pend res

/-- The verification commit effect (sync verification result to display):
runs the scan whenever status is `verifying` or `completed`. -/
def verificationCommitStep (s : AppSystem) : AppSystem :=
  if s.store.status = .verifying ∨ s.store.status = .completed then
    let pr := commitScan s.store.thinkingUpdates s.pendingResults s.store.verificationResults
    let store' := { s.store with verificationResults := pr.2 }
    { s with store := store', pendingResults := pr.1 }
  else s

/-- Modelled from the spec: the store action `setThinkingDisplayComplete
(claim_id, phase)` is called by `ThinkingPane.tsx` and read by `App.tsx` but
is absent from the provided store source; per the spec the Reveal Scheduler
"only writes `displayComplete`" for the finished entry, so it marks the
timeline entry for that `(claim_id, phase)` as display-complete, mutating
nothing else. -/
def markDisplayComplete (log : List ThinkingUpdate) (c p : String) : List ThinkingUpdate :=
  log.map (fun u =>
    if u.claim_id = c ∧ u.phase = p then { u with isDisplayComplete := true } else u)

/-- One display-completion tick for `(c, p)`: the entry is marked complete,
which changes `thinkingUpdates` and hence re-runs the verification commit
effect (each completion is a separate task in the cooperative model). -/
def displayCompleteStep (s : AppSystem) (c p : String) : AppSystem :=
  let store' := { s.store with thinkingUpdates := markDisplayComplete s.store.thinkingUpdates c p }
  verificationCommitStep { s with store := store' }

/-- A terminal (`phase = "completed"`) timeline entry for claim `c`, not yet
display-complete. -/
def mkCompletedEntry (c m : String) : ThinkingUpdate :=
  { claim_id := c, phase := "completed", message := m }

/-- Store state for the two-claim concurrency scenario: verifying, with
claim `b`'s terminal entry ahead of claim `a`'s in the log. -/
def twoClaimStore (a b ma mb : String) : AppStoreState :=
  { storeInit with status := .verifying, thinkingUpdates := [mkCompletedEntry b mb, mkCompletedEntry a ma] }

/-- Combined system for the two-claim concurrency scenario, with empty
pending buffers and no visible results yet. -/
def twoClaimSys (a b ma mb : String) : AppSystem :=
  { store := twoClaimStore a b ma mb, pendingClaims := none, pendingResults := [] }

/-- A sample verification result. -/
def vr0 : VerificationResult :=
  { claim_id := "claim_1", claim_text := "t", claim_type := "factual",
    thinking_process := "", status := .VERIFIED, confidence := 1,
    evidence_summary := "", key_findings := [], sources := [] }

/-- A sample result for claim id `A`. -/
def vrA : VerificationResult := { vr0 with claim_id := "A" }

/-- A sample result for claim id `B`. -/
def vrB : VerificationResult := { vr0 with claim_id := "B" }

/-- A sample extracted claim. -/
def claim0 : Claim :=
  { id := "claim_1", claim := "Paris is the capital of France", verbatim := "",
    context := "", type := "factual", is_quote := false, confidence := 1 }

/-- A system mid-extraction, before any claims have been buffered. -/
def extractingSys : AppSystem :=
  { store := { storeInit with status := .extracting }, pendingClaims := none, pendingResults := [] }

/-- The moment the claim set is buffered (clock zeroed at buffering time). -/
def extractionStartT : TimedSystem :=
  { sys := handleClaimsExtracted extractingSys [claim0], now := 0 }

end FChker

namespace FChker

theorem findIndexOpt_isSome_of_mem {α : Type} (p : α → Bool) (l : List α) (e : α)
    (he : e ∈ l) (hp : p e = true) : (findIndexOpt p l).isSome := by
  induction l with
  | nil => cases he
  | cons x rest ih =>
    by_cases hx : p x = true
    · simp [findIndexOpt, hx]
    · rcases List.mem_cons.mp he with rfl | hmem
      · exact absurd hp hx
      · simp only [findIndexOpt, hx, if_neg]
        simp [Option.isSome_map, ih hmem]

theorem addThinkingUpdate_append (log : List ThinkingUpdate) (u : ThinkingUpdate)
    (h : nativeAppendable log u = false) (hd : u.is_delta = false)
    (hs : u.is_streaming_complete = false) :
    addThinkingUpdate log u = log ++ [u] := by
  simp [addThinkingUpdate, h, hd, hs]

theorem addThinkingUpdate_native_concat (L : List ThinkingUpdate) (c p acc m : String) :
    addThinkingUpdate (L ++ [mkNative c p acc]) (mkNative c p m) =
      L ++ [mkNative c p (acc ++ m)] := by
  have hguard : nativeAppendable (L ++ [mkNative c p acc]) (mkNative c p m) = true := by
    simp [nativeAppendable, mkNative]
  simp only [addThinkingUpdate, hguard, if_true]
  simp [List.getLast?_concat, List.dropLast_concat, mkNative]

theorem mergeAll_native_acc (c p : String) (ms : List String) :
    ∀ (L : List ThinkingUpdate) (acc : String),
    mergeAll (L ++ [mkNative c p acc]) (ms.map (mkNative c p)) =
      L ++ [mkNative c p (ms.foldl (fun a s => a ++ s) acc)] := by
  induction ms with
  | nil => intro L acc; simp [mergeAll]
  | cons m rest ih =>
    intro L acc
    simp only [List.map_cons, mergeAll, List.foldl_cons]
    rw [show List.foldl addThinkingUpdate (addThinkingUpdate (L ++ [mkNative c p acc]) (mkNative c p m)) (rest.map (mkNative c p)) = mergeAll (addThinkingUpdate (L ++ [mkNative c p acc]) (mkNative c p m)) (rest.map (mkNative c p)) from rfl]
    rw [addThinkingUpdate_native_concat]
    exact ih L (acc ++ m)

theorem empty_string_append (s : String) : "" ++ s = s := by
  cases s; rfl

theorem mem_of_getLast?_some {α : Type} {l : List α} {a : α} (h : l.getLast? = some a) :
    a ∈ l := by
  rcases List.mem_getLast?_eq_getLast (show a ∈ l.getLast? by rw [h]; exact rfl) with ⟨hne, rfl⟩
  exact List.getLast_mem hne

theorem addThinkingUpdate_noDC (log : List ThinkingUpdate) (u : ThinkingUpdate)
    (hl : ∀ v ∈ log, v.isDisplayComplete = false) (hu : u.isDisplayComplete = false) :
    ∀ v ∈ addThinkingUpdate log u, v.isDisplayComplete = false := by
  intro v hv
  unfold addThinkingUpdate at hv
  by_cases hg : nativeAppendable log u = true
  · rw [if_pos hg] at hv
    cases hlast : log.getLast? with
    | none =>
        rw [hlast] at hv
        rcases List.mem_append.mp hv with h | h
        · exact hl v h
        · simp at h; subst h; exact hu
    | some lastU =>
        rw [hlast] at hv
        rcases List.mem_append.mp hv with h | h
        · exact hl v (List.dropLast_subset _ h)
        · simp at h
          subst h
          exact hl lastU (mem_of_getLast?_some hlast)
  · rw [if_neg hg] at hv
    by_cases hd : (u.is_delta || u.is_streaming_complete) = true
    · rw [if_pos hd] at hv
      cases hidx : findIndexOpt (deltaRefinedMatch u) log with
      | none =>
          rw [hidx] at hv
          rcases List.mem_append.mp hv with h | h
          · exact hl v h
          · simp at h; subst h; exact hu
      | some i =>
          rw [hidx] at hv
          rcases List.mem_or_eq_of_mem_set hv with h | h
          · exact hl v h
          · subst h; exact hu
    · rw [if_neg hd] at hv
      rcases List.mem_append.mp hv with h | h
      · exact hl v h
      · simp at h; subst h; exact hu

theorem extractionCommitStep_stuck (s : AppSystem)
    (hl : ∀ v ∈ s.store.thinkingUpdates, v.isDisplayComplete = false) :
    extractionCommitStep s = s := by
  unfold extractionCommitStep
  by_cases hst : s.store.status = .extracting
  · rw [if_pos hst]
    cases hf : s.store.thinkingUpdates.find?
        (fun u => decide (u.claim_id = "extraction_thinking") && u.is_streaming_complete) with
    | none => rfl
    | some u =>
        have hmem : u ∈ s.store.thinkingUpdates := List.mem_of_find?_eq_some hf
        have : u.isDisplayComplete = false := hl u hmem
        simp [this]
  · rw [if_neg hst]

theorem clear_spec (s : TWState) (h : twTimerInv s) :
    (clearIntervalRef s).timers = [] ∧ (clearIntervalRef s).intervalRef = none := by
  unfold twTimerInv at h
  cases hr : s.intervalRef with
  | none => simp [clearIntervalRef, hr]; rw [h, hr]; rfl
  | some tid => simp [clearIntervalRef, hr]; rw [h, hr]; simp [Option.toList]

theorem clear_inv (s : TWState) (h : twTimerInv s) : twTimerInv (clearIntervalRef s) := by
  have := clear_spec s h
  unfold twTimerInv
  rw [this.1, this.2]
  rfl

theorem effect_inv (text : String) (s : TWState) (h : twTimerInv s) :
    twTimerInv (effectStep text s) := by
  have hc := clear_spec s h
  by_cases h0 : text.length = 0
  · simp [effectStep, h0, twTimerInv, hc.1, hc.2, Option.toList]
  · by_cases hlt : text.length < (clearIntervalRef s).index
    · simp [effectStep, h0, hlt, Nat.le_zero, twTimerInv, startInterval,
        hc.1, hc.2, Option.toList]
    · by_cases hle : text.length ≤ (clearIntervalRef s).index
      · simp [effectStep, h0, hlt, hle, twTimerInv, hc.1, hc.2, Option.toList]
      · simp [effectStep, h0, hlt, hle, twTimerInv, startInterval, hc.1, hc.2, Option.toList]

theorem tick_inv (text : String) (s : TWState) (h : twTimerInv s) :
    twTimerInv (tickStep text s) := by
  unfold tickStep
  split
  · exact h
  · have := clear_spec s h
    unfold twTimerInv
    rw [this.1, this.2]
    rfl

theorem reach_inv (s : TWState) (h : TWReach s) : twTimerInv s := by
  induction h with
  | init => rfl
  | effect text _ ih => exact effect_inv text _ ih
  | tick text _ _ ih => exact tick_inv text _ ih
  | cleanup _ ih => exact clear_inv _ ih

theorem lookupResult_remove_self (m : List (String × VerificationResult)) (c : String) :
    lookupResult (removeResult m c) c = none := by
  simp only [lookupResult, removeResult, Option.map_eq_none', List.find?_eq_none]
  intro kv hkv
  have := List.of_mem_filter hkv
  simpa using this

theorem lookupResult_none_mono (m : List (String × VerificationResult)) (c c' : String)
    (h : lookupResult m c = none) : lookupResult (removeResult m c') c = none := by
  simp only [lookupResult, removeResult, Option.map_eq_none', List.find?_eq_none] at *
  intro kv hkv
  exact h kv (List.mem_of_mem_filter hkv)

theorem commitScan_lookup_none (log : List ThinkingUpdate) :
    ∀ (pend : List (String × VerificationResult)) (res : List VerificationResult) (c : String),
    lookupResult pend c = none → lookupResult (commitScan log pend res).1 c = none := by
  induction log with
  | nil => intro pend res c h; exact h
  | cons u rest ih =>
    intro pend res c h
    unfold commitScan
    by_cases hc : (decide (u.phase = "completed") && u.isDisplayComplete) = true
    · rw [if_pos hc]
      cases hl : lookupResult pend u.claim_id with
      | none => exact ih pend res c h
      | some r => exact ih _ _ c (lookupResult_none_mono pend c u.claim_id h)
    · rw [if_neg hc]
      exact ih pend res c h

theorem commitScan_releases_all (log : List ThinkingUpdate) :
    ∀ (pend : List (String × VerificationResult)) (res : List VerificationResult),
    ∀ u ∈ log, u.phase = "completed" → u.isDisplayComplete = true →
    lookupResult (commitScan log pend res).1 u.claim_id = none := by
  induction log with
  | nil => intro pend res u hu; cases hu
  | cons u0 rest ih =>
    intro pend res u hu hph hdc
    rcases List.mem_cons.mp hu with rfl | hmem
    · have hc : (decide (u.phase = "completed") && u.isDisplayComplete) = true := by
        simp [hph, hdc]
      unfold commitScan
      rw [if_pos hc]
      cases hl : lookupResult pend u.claim_id with
      | none => exact commitScan_lookup_none rest _ _ _ hl
      | some r =>
          exact commitScan_lookup_none rest _ _ _ (lookupResult_remove_self pend u.claim_id)
    · unfold commitScan
      by_cases hc : (decide (u0.phase = "completed") && u0.isDisplayComplete) = true
      · rw [if_pos hc]
        cases hl : lookupResult pend u0.claim_id with
        | none => exact ih pend res u hmem hph hdc
        | some r => exact ih _ _ u hmem hph hdc
      · rw [if_neg hc]
        exact ih pend res u hmem hph hdc

theorem verification_release_order_scenario (a b : String) (hab : a ≠ b)
    (ra rb : VerificationResult) (hra : ra.claim_id = a) (hrb : rb.claim_id = b)
    (ma mb : String) :
    (displayCompleteStep
      (displayCompleteStep
        (handleVerificationResult
          (handleVerificationResult (twoClaimSys a b ma mb) rb) ra)
        a "completed")
      b "completed").store.verificationResults = [ra, rb] ∧
    (displayCompleteStep
      (displayCompleteStep
        (handleVerificationResult
          (handleVerificationResult (twoClaimSys a b ma mb) rb) ra)
        a "completed")
      b "completed").pendingResults = [] := by
  have hba : b ≠ a := Ne.symm hab
  simp [displayCompleteStep, handleVerificationResult, verificationCommitStep,
    markDisplayComplete, commitScan, insertResult, lookupResult, removeResult,
    mkCompletedEntry, storeInit, twoClaimSys, twoClaimStore, hra, hrb, hab, hba]

end FChker

namespace FChker

/-- Claim C1, counterexample to the claim as stated: a streaming-complete
event for a fresh `(claim_id, phase)` pair is appended (length 1), yet the
next delta event for the very same pair is appended as well (length 2)
instead of replacing in place, because rule 2's search only matches entries
tagged `is_delta` or `is_refined` and the first entry carries neither. -/
theorem merge_replace_claim_cex :
    (addThinkingUpdate [] (mkComplete "c" "p" "x")).length = 1 ∧
    (addThinkingUpdate (addThinkingUpdate [] (mkComplete "c" "p" "x"))
        (mkDelta "c" "p" "y")).length = 2 := by decide

/-- Claim C1 (amended): whenever the log already holds a
delta-or-refined-tagged entry for the event's `(claim_id, phase)` pair,
merging any further `is_delta` or `is_streaming_complete` event for that
pair leaves the log length unchanged — the merge mutates in place (replacing
the matching entry, or concatenating if the native-thought rule fires first)
rather than appending. -/
theorem merge_replace_in_place (log : List ThinkingUpdate) (u : ThinkingUpdate)
    (hflag : (u.is_delta || u.is_streaming_complete) = true)
    (e : ThinkingUpdate) (he : e ∈ log) (hm : deltaRefinedMatch u e = true) :
    (addThinkingUpdate log u).length = log.length := by
  have hne : log ≠ [] := by rintro rfl; cases he
  unfold addThinkingUpdate
  by_cases hguard : nativeAppendable log u = true
  · simp only [hguard, if_true]
    rcases List.exists_cons_of_ne_nil hne with ⟨a, t, rfl⟩
    cases hlast : (a :: t).getLast? with
    | none => simp [List.getLast?] at hlast
    | some lastU =>
      simp [List.length_dropLast]
  · simp only [hguard, if_false, hflag, Bool.not_eq_true]
    have hsome := findIndexOpt_isSome_of_mem (deltaRefinedMatch u) log e he hm
    cases hidx : findIndexOpt (deltaRefinedMatch u) log with
    | none => rw [hidx] at hsome; simp at hsome
    | some i => simp [hidx, hguard]

/-- Witness for C1's amended theorem at a concrete input: a delta entry is in
the log, the streaming-complete event matches it, and the merge keeps the
log length at one. -/
theorem merge_replace_in_place_witness :
    ((mkComplete "c" "p" "abcd").is_delta ||
        (mkComplete "c" "p" "abcd").is_streaming_complete) = true ∧
    mkDelta "c" "p" "ab" ∈ [mkDelta "c" "p" "ab"] ∧
    deltaRefinedMatch (mkComplete "c" "p" "abcd") (mkDelta "c" "p" "ab") = true ∧
    (addThinkingUpdate [mkDelta "c" "p" "ab"] (mkComplete "c" "p" "abcd")).length =
      [mkDelta "c" "p" "ab"].length :=
  ⟨by decide, by decide, by decide,
   merge_replace_in_place [mkDelta "c" "p" "ab"] (mkComplete "c" "p" "abcd") (by decide)
     (mkDelta "c" "p" "ab") (by decide) (by decide)⟩

/-- Claim C2: for every sequence of N ≥ 1 consecutive native-thought events
sharing `(claim_id, phase)` and starting a fresh accumulator entry (the log's
last entry is not already a matching native-thought entry, expressed as the
rule-1 guard failing for the first event), after all N merges the affected
(last) entry's text is the concatenation of the N messages in arrival order,
and the log length after the N-th merge equals the log length after the
first. -/
theorem native_thought_concatenation (log : List ThinkingUpdate) (c p m : String)
    (rest : List String)
    (h : nativeAppendable log (mkNative c p m) = false) :
    (mergeAll log ((m :: rest).map (mkNative c p))).length =
      (addThinkingUpdate log (mkNative c p m)).length ∧
    (mergeAll log ((m :: rest).map (mkNative c p))).getLast? =
      some (mkNative c p ((m :: rest).foldl (fun a s => a ++ s) "")) := by
  have h1 : addThinkingUpdate log (mkNative c p m) = log ++ [mkNative c p m] :=
    addThinkingUpdate_append log (mkNative c p m) h rfl rfl
  have h2 : mergeAll log ((m :: rest).map (mkNative c p)) =
      log ++ [mkNative c p (rest.foldl (fun a s => a ++ s) m)] := by
    simp only [List.map_cons, mergeAll, List.foldl_cons, h1]
    have := mergeAll_native_acc c p rest log m
    simpa [mergeAll] using this
  rw [h2, h1]
  constructor
  · simp
  · simp [List.foldl_cons, empty_string_append]

/-- Witness for C2 at a concrete input: two native events "a", "b" into an
empty log yield one entry with text "ab", and the length after both equals
the length after the first. -/
theorem native_thought_concatenation_witness :
    nativeAppendable [] (mkNative "c" "p" "a") = false ∧
    ((mergeAll [] (["a", "b"].map (mkNative "c" "p"))).length =
      (addThinkingUpdate [] (mkNative "c" "p" "a")).length ∧
     (mergeAll [] (["a", "b"].map (mkNative "c" "p"))).getLast? =
      some (mkNative "c" "p" (["a", "b"].foldl (fun a s => a ++ s) ""))) :=
  ⟨by decide, native_thought_concatenation [] "c" "p" "a" ["b"] (by decide)⟩

/-- Claim C3: merging the three-event sequence "ab" (delta), "abc" (delta),
"abcd" (streaming-complete) for one `(claim_id, phase)` pair into an empty
log yields exactly one entry whose text is "abcd" and whose
`is_streaming_complete` flag is true. -/
theorem delta_snapshot_coalescing (c p : String) :
    (mergeAll [] [mkDelta c p "ab", mkDelta c p "abc", mkComplete c p "abcd"]).length = 1 ∧
    (mergeAll [] [mkDelta c p "ab", mkDelta c p "abc",
        mkComplete c p "abcd"]).head?.map (fun u => u.message) = some "abcd" ∧
    (mergeAll [] [mkDelta c p "ab", mkDelta c p "abc",
        mkComplete c p "abcd"]).head?.map (fun u => u.is_streaming_complete) = some true := by
  have hfin : mergeAll [] [mkDelta c p "ab", mkDelta c p "abc", mkComplete c p "abcd"] =
      [mkComplete c p "abcd"] := by
    simp [mergeAll, addThinkingUpdate, nativeAppendable, deltaRefinedMatch, findIndexOpt,
      mkDelta, mkComplete]
  rw [hfin]
  simp [mkComplete]

/-- Claim C4: the code has no safety timeout.  Starting from the state where
a claim set has just been buffered during extraction, any execution trace
whatsoever — arbitrary time passing, arbitrary runs of the extraction commit
effect, arbitrary inbound thinking/result events — in which no extraction
entry ever reaches `isDisplayComplete` leaves the status at `extracting` and
the claims buffered forever; in particular the transition to
`awaiting_confirmation` required by the claim within 4000ms never occurs. -/
theorem extraction_never_confirms (es : List ExtEvent) :
    ∀ (t0 : TimedSystem),
    t0.sys.store.status = .extracting →
    (∀ v ∈ t0.sys.store.thinkingUpdates, v.isDisplayComplete = false) →
    noDisplayCompleteEvents es →
    (extRun t0 es).sys.store.status = .extracting ∧
    (extRun t0 es).sys.pendingClaims = t0.sys.pendingClaims := by
  induction es with
  | nil => intro t0 h1 h2 h3; exact ⟨h1, rfl⟩
  | cons e rest ih =>
    intro t0 h1 h2 h3
    have hrest : noDisplayCompleteEvents rest := by
      intro u hu
      exact h3 u (List.mem_cons_of_mem _ hu)
    cases e with
    | elapse ms =>
        have := ih ({ t0 with now := t0.now + ms }) h1 h2 hrest
        exact ⟨by simpa [extRun, extApply] using this.1,
               by simpa [extRun, extApply] using this.2⟩
    | commitEffect =>
        have heq : extractionCommitStep t0.sys = t0.sys := extractionCommitStep_stuck t0.sys h2
        have hih := ih ({ t0 with sys := extractionCommitStep t0.sys })
          (by rw [heq]; exact h1) (by rw [heq]; exact h2) hrest
        rw [heq] at hih
        exact ⟨by simpa [extRun, extApply, heq] using hih.1,
               by simpa [extRun, extApply, heq] using hih.2⟩
    | thinkingArrives u =>
        have hu : u.isDisplayComplete = false := h3 u (List.mem_cons_self _ _)
        have h1' : (handleThinkingUpdate t0.sys u).store.status = .extracting := h1
        have h2' : ∀ v ∈ (handleThinkingUpdate t0.sys u).store.thinkingUpdates,
            v.isDisplayComplete = false := addThinkingUpdate_noDC _ u h2 hu
        have := ih ({ t0 with sys := handleThinkingUpdate t0.sys u }) h1' h2' hrest
        exact ⟨by simpa [extRun, extApply] using this.1,
               by simpa [extRun, extApply, handleThinkingUpdate] using this.2⟩
    | resultArrives r =>
        have h1' : (handleVerificationResult t0.sys r).store.status = .extracting := h1
        have h2' : ∀ v ∈ (handleVerificationResult t0.sys r).store.thinkingUpdates,
            v.isDisplayComplete = false := h2
        have := ih ({ t0 with sys := handleVerificationResult t0.sys r }) h1' h2' hrest
        exact ⟨by simpa [extRun, extApply] using this.1,
               by simpa [extRun, extApply, handleVerificationResult] using this.2⟩

/-- Witness for C4's theorem at a concrete failing trace: claims are
buffered at t = 0, 5000ms > 4000ms elapse with no display completion, the
commit effect runs, and the session is still `extracting` with the claims
still buffered. -/
theorem extraction_never_confirms_witness :
    (extRun extractionStartT [ExtEvent.elapse 5000, ExtEvent.commitEffect]).sys.store.status =
      SessionStatus.extracting ∧
    (extRun extractionStartT [ExtEvent.elapse 5000, ExtEvent.commitEffect]).sys.pendingClaims =
      extractionStartT.sys.pendingClaims :=
  extraction_never_confirms [ExtEvent.elapse 5000, ExtEvent.commitEffect] extractionStartT rfl
    (by intro v hv
        simp [extractionStartT, handleClaimsExtracted, extractingSys, storeInit] at hv)
    (by intro u hu; simp at hu)

/-- Claim C5, counterexample to the claim as stated: running the reveal
effect with an empty target text marks the entry NOT display-complete
(`isComplete = false`), where the claim requires it to be immediately marked
display-complete. -/
theorem empty_text_not_complete_cex : (effectStep "" twInit).isComplete = false := by decide

/-- Claim C5 (amended): whenever the target text is empty, the effect resets
the entry to an empty displayed text at position zero, marks it NOT
display-complete (`isComplete` is set to `false` by the hard-reset branch,
which returns before the completion check), and starts no reveal timer. -/
theorem empty_text_reveal (s : TWState) :
    (effectStep "" s).displayed = "" ∧ (effectStep "" s).isComplete = false ∧
    (effectStep "" s).index = 0 ∧ (effectStep "" s).intervalRef = none ∧
    (effectStep "" s).nextId = s.nextId := by
  cases hr : s.intervalRef <;> simp [effectStep, clearIntervalRef, hr]

/-- Claim C6: on every run of the reveal effect with a new target text, if
the new text's length is at least the current display position the scheduler
continues from the current position (display position and displayed text both
unchanged); it hard-resets the displayed text to empty and restarts from
position zero exactly when the new text is shorter than the current display
position.  The hypothesis records the slot invariant that an empty position
shows an empty display. -/
theorem growth_continue_shrink_reset (text : String) (s : TWState)
    (h0 : s.index = 0 → s.displayed = "") :
    (s.index ≤ text.length →
      (effectStep text s).index = s.index ∧ (effectStep text s).displayed = s.displayed) ∧
    (text.length < s.index →
      (effectStep text s).index = 0 ∧ (effectStep text s).displayed = "") := by
  have hidx : (clearIntervalRef s).index = s.index := by
    cases hr : s.intervalRef <;> simp [clearIntervalRef, hr]
  have hdis : (clearIntervalRef s).displayed = s.displayed := by
    cases hr : s.intervalRef <;> simp [clearIntervalRef, hr]
  constructor
  · intro hle
    by_cases h0' : text.length = 0
    · have hiz : s.index = 0 := by omega
      simp [effectStep, h0', hiz, h0 hiz]
    · have hnlt : ¬ text.length < s.index := by omega
      by_cases heq : text.length ≤ s.index
      · simp [effectStep, h0', hidx, hdis, hnlt, heq]
      · simp [effectStep, h0', hidx, hdis, hnlt, heq, startInterval]
  · intro hlt
    by_cases h0' : text.length = 0
    · simp [effectStep, h0']
    · have hlt' : text.length < s.index := by omega
      have hnle : ¬ text.length ≤ 0 := by omega
      simp [effectStep, h0', hidx, hdis, hlt', hnle, startInterval]

/-- Witness for C6 at a concrete input: a slot two characters into "ab"
receiving the grown target "abcd" keeps its position and display, and the
shrink clause holds vacuously. -/
theorem growth_continue_shrink_reset_witness :
    ((2 ≤ ("abcd" : String).length →
      (effectStep "abcd" ⟨2, "ab", false, [], none, 5⟩).index = 2 ∧
      (effectStep "abcd" ⟨2, "ab", false, [], none, 5⟩).displayed = "ab") ∧
     (("abcd" : String).length < 2 →
      (effectStep "abcd" ⟨2, "ab", false, [], none, 5⟩).index = 0 ∧
      (effectStep "abcd" ⟨2, "ab", false, [], none, 5⟩).displayed = "")) :=
  growth_continue_shrink_reset "abcd" ⟨2, "ab", false, [], none, 5⟩ (by decide)

/-- Claim C7: (order) in the two-claim scenario where claim B's result
arrives before claim A's but A's terminal display completes first, A's
result is released into the visible results before B's — even though B's
terminal log entry precedes A's; (completeness) on any commit tick while
verifying/completed, every claim id whose terminal completed-phase entry is
display-complete and which is present in the pending map is released in that
same tick (none of them remains pending afterwards). -/
theorem verification_release_order_and_completeness (a b : String) (hab : a ≠ b)
    (ra rb : VerificationResult) (hra : ra.claim_id = a) (hrb : rb.claim_id = b)
    (ma mb : String) :
    ((displayCompleteStep
      (displayCompleteStep
        (handleVerificationResult
          (handleVerificationResult (twoClaimSys a b ma mb) rb) ra)
        a "completed")
      b "completed").store.verificationResults = [ra, rb] ∧
    (displayCompleteStep
      (displayCompleteStep
        (handleVerificationResult
          (handleVerificationResult (twoClaimSys a b ma mb) rb) ra)
        a "completed")
      b "completed").pendingResults = []) ∧
    (∀ s : AppSystem, s.store.status = .verifying ∨ s.store.status = .completed →
      ∀ u ∈ s.store.thinkingUpdates, u.phase = "completed" → u.isDisplayComplete = true →
        lookupResult (verificationCommitStep s).pendingResults u.claim_id = none) := by
  refine ⟨verification_release_order_scenario a b hab ra rb hra hrb ma mb, ?_⟩
  intro s hst u hu hph hdc
  unfold verificationCommitStep
  rw [if_pos hst]
  exact commitScan_releases_all s.store.thinkingUpdates s.pendingResults
    s.store.verificationResults u hu hph hdc

/-- Witness for C7 at concrete inputs: claims "A" and "B" with results `vrA`,
`vrB`, arrival order B then A, completion order A then B. -/
theorem verification_release_order_and_completeness_witness :
    (((displayCompleteStep
      (displayCompleteStep
        (handleVerificationResult
          (handleVerificationResult (twoClaimSys "A" "B" "" "") vrB) vrA)
        "A" "completed")
      "B" "completed").store.verificationResults = [vrA, vrB] ∧
    (displayCompleteStep
      (displayCompleteStep
        (handleVerificationResult
          (handleVerificationResult (twoClaimSys "A" "B" "" "") vrB) vrA)
        "A" "completed")
      "B" "completed").pendingResults = []) ∧
    (∀ s : AppSystem, s.store.status = .verifying ∨ s.store.status = .completed →
      ∀ u ∈ s.store.thinkingUpdates, u.phase = "completed" → u.isDisplayComplete = true →
        lookupResult (verificationCommitStep s).pendingResults u.claim_id = none)) :=
  verification_release_order_and_completeness "A" "B" (by decide) vrA vrB rfl rfl "" ""

/-- Claim C8: at every reachable state of a reveal slot, at most one reveal
timer is live — the effect, tick and cleanup paths each cancel the
in-progress interval before (or instead of) starting a new one, so two
timers never race on the same entry. -/
theorem single_timer_invariant (s : TWState) (h : TWReach s) : s.timers.length ≤ 1 := by
  have hi := reach_inv s h
  rw [hi]
  cases s.intervalRef <;> simp [Option.toList]

/-- Witness for C8 at a concrete reachable state: the initial slot state. -/
theorem single_timer_invariant_witness : twInit.timers.length ≤ 1 :=
  single_timer_invariant twInit TWReach.init

/-- Claim C9, counterexample to the claim as stated: from the reachable
state obtained by receiving one verification result, `reset()` leaves
`pendingResultsRef` non-empty — the claim requires an empty
PendingResultsMap after reset. -/
theorem reset_pending_survives_cex :
    (resetSystem (handleVerificationResult sysInit vr0)).pendingResults ≠ [] := by decide

/-- Claim C9 (amended): `reset()` from any state yields `status = idle`, an
empty timeline log, empty claims/results collections, an empty status
message and no error — but it is a store action only and leaves the
PendingClaimsBuffer and the PendingResultsMap untouched. -/
theorem reset_postcondition (s : AppSystem) :
    (resetSystem s).store.status = .idle ∧
    (resetSystem s).store.thinkingUpdates = [] ∧
    (resetSystem s).store.extractedClaims = [] ∧
    (resetSystem s).store.selectedClaims = [] ∧
    (resetSystem s).store.verificationResults = [] ∧
    (resetSystem s).store.statusMessage = "" ∧
    (resetSystem s).store.error = none ∧
    (resetSystem s).pendingClaims = s.pendingClaims ∧
    (resetSystem s).pendingResults = s.pendingResults := by
  simp [resetSystem, reset]

/-- Claim C10: `reset()` leaves `sessionId`, `inputText`, `mode` and
`focusPane` unchanged and clears exactly `extractedClaims`,
`selectedClaims`, `thinkingUpdates`, `verificationResults`, `status`,
`statusMessage` and `error`. -/
theorem reset_frame_condition (s : AppStoreState) :
    (reset s).sessionId = s.sessionId ∧
    (reset s).inputText = s.inputText ∧
    (reset s).mode = s.mode ∧
    (reset s).focusPane = s.focusPane ∧
    (reset s).extractedClaims = [] ∧
    (reset s).selectedClaims = [] ∧
    (reset s).thinkingUpdates = [] ∧
    (reset s).verificationResults = [] ∧
    (reset s).status = .idle ∧
    (reset s).statusMessage = "" ∧
    (reset s).error = none := by
  simp [reset]

end FChker
